import Mathlib

/-!
Latest-savepoint resolution (`cmd/cli/operations/retrieve_savepoint.go`).

A shallow embedding of `retrieveLatestSavepoint`, `retrieveLatestSavepointS3`
and `retrieveLatestSavepointLocal`, followed by the properties proved about
them.

Conventions of the embedding.

* A Go `string` is a Lean `String`, handled through its list of characters.
  The patterns the program searches for (`"/"`, `"_metadata"`) are ASCII, so
  matching characters and matching bytes agree on well-formed UTF-8 text.
* A Go `error` is represented by its message; `nil` is `none`.
* A Go result `(string, error)` is kept as a pair, so that "the string is
  empty when the error is set" is a property to prove, not a typing fact.
* The collaborators of the program (`url.Parse`, the AWS configuration
  loader, the S3 listing request, `afero.ReadDir`, `Filesystem.Stat`) are
  fields of a `World`; every theorem quantifies over all worlds.
* Every collaborator call and every log line is recorded, in program order,
  in the `calls` component of a run.
-/

set_option autoImplicit false

namespace FlinkDeployer

/-! ## Go library functions used by the program -/

namespace strings

/-- Go `strings.HasSuffix(s, suffix)`. -/
def HasSuffix (s suffix : String) : Bool :=
  suffix.data.isSuffixOf s.data

/-- Go `strings.TrimSuffix(s, suffix)`: `s` without the trailing `suffix`
when it has it (one occurrence only), `s` otherwise. -/
def TrimSuffix (s suffix : String) : String :=
  if HasSuffix s suffix then ⟨s.data.take (s.data.length - suffix.data.length)⟩ else s

/-- Go `strings.TrimLeft(s, cutset)`: `s` without its longest leading run of
characters contained in `cutset`. -/
def TrimLeft (s cutset : String) : String :=
  ⟨s.data.dropWhile (fun c => cutset.data.contains c)⟩

end strings

/-- Go `error`, represented by its message. -/
abbrev GoError := String

deriving instance DecidableEq for Except

/-- Go `time.Time` restricted to wall-clock instants: the number of
nanoseconds elapsed since the zero `Time` (January 1, year 1, 00:00:00 UTC).
The zero value of the type is `⟨0⟩`; instants before it are negative. -/
structure Time where
  ns : Int
  deriving DecidableEq, Repr

namespace Time

/-- The zero value `time.Time{}`, the initial value of `var newestTime time.Time`. -/
def zero : Time := ⟨0⟩

/-- Go `t.After(u)`. -/
def After (t u : Time) : Bool := decide (u.ns < t.ns)

end Time

/-- Go `url.URL`, with the three fields the program reads or writes; the
remaining fields (`Opaque`, `User`, `RawPath`, `ForceQuery`, `RawQuery`,
`Fragment`) keep their zero values in every URL the program builds. -/
structure URL where
  Scheme : String := ""
  Host : String := ""
  Path : String := ""
  deriving DecidableEq, Repr

namespace URL

/-- The escaping modes of `net/url` that `URL.String` uses for host and path. -/
inductive encoding where
  | encodePath
  | encodeHost
  deriving DecidableEq, Repr

/-- Go `net/url.shouldEscape(c, mode)` on a byte `c`, for the two modes above. -/
def shouldEscape (c : Nat) (mode : encoding) : Bool :=
  if ('a'.toNat ≤ c ∧ c ≤ 'z'.toNat) ∨ ('A'.toNat ≤ c ∧ c ≤ 'Z'.toNat)
      ∨ ('0'.toNat ≤ c ∧ c ≤ '9'.toNat) then false
  else if mode = encoding.encodeHost ∧
      c ∈ ['!', '$', '&', '\'', '(', ')', '*', '+', ',', ';', '=', ':', '[', ']', '<', '>',
        '"'].map Char.toNat then false
  else if c ∈ ['-', '_', '.', '~'].map Char.toNat then false
  else if c ∈ ['$', '&', '+', ',', '/', ':', ';', '=', '?', '@'].map Char.toNat
      ∧ mode = encoding.encodePath then decide (c = '?'.toNat)
  else true

/-- The digit table `upperhex` of `net/url`. -/
def upperhex (n : Nat) : Char :=
  "0123456789ABCDEF".data.getD n '0'

/-- One byte of `net/url.escape`: kept, or written as `%XX`. -/
def escapeByte (mode : encoding) (c : Nat) : List Char :=
  if shouldEscape c mode then ['%', upperhex (c / 16), upperhex (c % 16)] else [Char.ofNat c]

/-- Go `net/url.escape(s, mode)` for the path and host modes: the bytes of
`s`, each one that `shouldEscape` selects replaced by its `%XX` form. -/
def escape (s : String) (mode : encoding) : String :=
  ⟨(s.data.flatMap fun ch => (String.utf8EncodeChar ch).map UInt8.toNat).flatMap
    (escapeByte mode)⟩

/-- Go `u.EscapedPath()` when `u.RawPath` is empty. -/
def EscapedPath (u : URL) : String :=
  if u.Path = "*" then "*" else escape u.Path encoding.encodePath

/-- Go `u.String()` for a URL whose `Opaque`, `User`, `RawQuery` and
`Fragment` fields are zero: scheme and `:`, then `//` and the escaped host,
then the escaped path, with a `/` inserted between a host and a relative path
and `./` put before a first path segment that contains a colon when nothing
was written before it. -/
def String (u : URL) : String :=
  let buf := if u.Scheme ≠ "" then u.Scheme ++ ":" else ""
  let buf :=
    if u.Scheme ≠ "" ∨ u.Host ≠ "" then
      let buf := if u.Host ≠ "" ∨ u.Path ≠ "" then buf ++ "//" else buf
      if u.Host ≠ "" then buf ++ escape u.Host encoding.encodeHost else buf
    else buf
  let path := u.EscapedPath
  let buf :=
    if path ≠ "" ∧ path.data.head? ≠ some '/' ∧ u.Host ≠ "" then buf ++ "/" else buf
  let buf :=
    if buf.data.length = 0 ∧ (path.data.takeWhile (fun c => c ≠ '/')).contains ':' then
      buf ++ "./"
    else buf
  buf ++ path

end URL

/-! Reading a location string back, as the package `net/url` does. -/

namespace url

/-- The scan of Go `net/url.getScheme(rawURL)`: `seen` is the text already
read, so `seen = []` is the test `i == 0`. Letters are always accepted; a
digit, `+`, `-` or `.` is accepted after the first character; `:` ends the
scheme; any other character means there is no scheme. -/
def getScheme.scan (rawURL : List Char) : List Char → List Char →
    Except GoError (List Char × List Char)
  | _, [] => .ok ([], rawURL)
  | seen, c :: rest =>
    if c.isAlpha then getScheme.scan rawURL (seen ++ [c]) rest
    else if c.isDigit ∨ c = '+' ∨ c = '-' ∨ c = '.' then
      if seen = [] then .ok ([], rawURL) else getScheme.scan rawURL (seen ++ [c]) rest
    else if c = ':' then
      if seen = [] then .error "missing protocol scheme" else .ok (seen, rest)
    else .ok ([], rawURL)

/-- Go `net/url.getScheme(rawURL)`: the scheme and the text after its `:`,
or no scheme and the whole text. -/
def getScheme (rawURL : List Char) : Except GoError (List Char × List Char) :=
  getScheme.scan rawURL [] rawURL

end url

/-! ## Collaborators -/

/-- One entry of `result.Contents`: the fields `Key` and `LastModified` of an
`s3.Object` (both pointers are taken to be non-nil). -/
structure Object where
  Key : String
  LastModified : Time
  deriving DecidableEq, Repr

/-- The request value `s3.ListObjectsV2Input`; `Prefix` is a nil pointer
(`none`) unless the program sets it. -/
structure ListObjectsV2Input where
  Bucket : String
  Prefix : Option String := none
  deriving DecidableEq, Repr

/-- An error returned by `req.Send`: its message `err.Error()`, and the code
`aerr.Code()` when the error is an `awserr.Error`. -/
structure SendError where
  Error : String
  Code : Option String := none
  deriving DecidableEq, Repr

/-- The constant `s3.ErrCodeNoSuchBucket`. -/
def ErrCodeNoSuchBucket : String := "NoSuchBucket"

/-- What the program obtains from outside itself during one call. -/
structure World where
  /-- Go `url.Parse(rawurl)`: the parsed URL or the parse error. -/
  Parse : String → Except GoError URL
  /-- The error of `external.LoadDefaultAWSConfig()`, `none` when it is nil. -/
  LoadDefaultAWSConfig : Option GoError
  /-- Go `client.ListObjectsV2Request(input).Send(ctx)`: `result.Contents` or the error. -/
  Send : ListObjectsV2Input → Except SendError (List Object)
  /-- Go `afero.ReadDir(o.Filesystem, dir)`: the `Name()` of each entry, in the
  order returned, or the error. -/
  ReadDir : String → Except GoError (List String)
  /-- Go `o.Filesystem.Stat(path)`: `fi.ModTime().Unix()` of the entry, or the error. -/
  Stat : String → Except GoError Int

/-- The effects of a call, as seen from outside the program. -/
inductive Call where
  | LoadDefaultAWSConfig
  | Send (input : ListObjectsV2Input)
  | Println (args : List String)
  | ReadDir (dir : String)
  | Stat (path : String)
  deriving DecidableEq, Repr

/-- The calls only `retrieveLatestSavepointS3` makes. -/
def Call.isS3 : Call → Bool
  | .LoadDefaultAWSConfig => true
  | .Send _ => true
  | .Println _ => true
  | _ => false

/-- The calls only `retrieveLatestSavepointLocal` makes. -/
def Call.isLocal : Call → Bool
  | .ReadDir _ => true
  | .Stat _ => true
  | _ => false

/-- One execution of a function of type `(string, error)`: the two returned
values and the effects performed, in order. -/
structure Run where
  result : String
  err : Option GoError
  calls : List Call
  deriving DecidableEq, Repr

/-- The run `r` preceded by the effect `c`. -/
def Run.after (c : Call) (r : Run) : Run :=
  { r with calls := c :: r.calls }

/-! ## The program -/

/-- The table `s3Schemes`; a key absent from a Go map reads as `false`. -/
def s3Schemes (scheme : String) : Bool :=
  if scheme = "s3" then true
  else if scheme = "s3a" then true
  else if scheme = "s3p" then true
  else false

/-- The `for _, object := range result.Contents` loop of
`retrieveLatestSavepointS3`, started with the given `newestFile` and
`newestTime`; yields the final `newestFile`. -/
def retrieveLatestSavepointS3.scan (dir : URL) : List Object → URL → Time → URL
  | [], newestFile, _ => newestFile
  | object :: rest, newestFile, newestTime =>
    if strings.HasSuffix object.Key "_metadata" && object.LastModified.After newestTime then
      scan dir rest { Scheme := dir.Scheme, Host := dir.Host, Path := object.Key }
        object.LastModified
    else
      scan dir rest newestFile newestTime

/-- The request `input` that `retrieveLatestSavepointS3` builds from `dir`:
the bucket is the host, and the key prefix is set only for a non-empty path. -/
def retrieveLatestSavepointS3.input (dir : URL) : ListObjectsV2Input :=
  let input : ListObjectsV2Input := { Bucket := dir.Host }
  if dir.Path ≠ "" then { input with Prefix := some (strings.TrimLeft dir.Path "/") }
  else input

/-- Go `func (o RealOperator) retrieveLatestSavepointS3(dir *url.URL) (string, error)`. -/
def retrieveLatestSavepointS3 (w : World) (dir : URL) : Run :=
  match w.LoadDefaultAWSConfig with
  | some err => ⟨"", some ("unable to load SDK config: " ++ err), [Call.LoadDefaultAWSConfig]⟩
  | none =>
    let input := retrieveLatestSavepointS3.input dir
    let newestFile : URL := {}
    let newestTime : Time := Time.zero
    match w.Send input with
    | .error err =>
      let line :=
        match err.Code with
        | some code =>
          if code = ErrCodeNoSuchBucket then
            Call.Println ["s3 no such bucket failed error: ", err.Error]
          else
            Call.Println ["s3 ListObjectsV2Request requests failed: ", err.Error]
        | none => Call.Println ["s3 ListObjectsV2Request requests failed: ", err.Error]
      ⟨"", some ("listing S3 objects: " ++ err.Error),
        [Call.LoadDefaultAWSConfig, Call.Send input, line]⟩
    | .ok contents =>
      let newestFile :=
        if contents.length > 0 then retrieveLatestSavepointS3.scan dir contents newestFile newestTime
        else newestFile
      ⟨newestFile.String, none, [Call.LoadDefaultAWSConfig, Call.Send input]⟩

/-- The `for _, f := range files` loop of `retrieveLatestSavepointLocal`,
started with the given `newestFile` and `newestTime`, up to the function's
return. -/
def retrieveLatestSavepointLocal.scan (w : World) (dir : String) :
    List String → String → Int → Run
  | [], newestFile, _ => ⟨newestFile, none, []⟩
  | f :: files, newestFile, newestTime =>
    let filePath := dir ++ "/" ++ f
    match w.Stat filePath with
    | .error err => ⟨"", some err, [Call.Stat filePath]⟩
    | .ok currTime =>
      if currTime > newestTime then
        (scan w dir files filePath currTime).after (Call.Stat filePath)
      else
        (scan w dir files newestFile newestTime).after (Call.Stat filePath)

/-- Go `func (o RealOperator) retrieveLatestSavepointLocal(dir string) (string, error)`. -/
def retrieveLatestSavepointLocal (w : World) (dir : String) : Run :=
  let dir := if strings.HasSuffix dir "/" then strings.TrimSuffix dir "/" else dir
  match w.ReadDir dir with
  | .error err => ⟨"", some err, [Call.ReadDir dir]⟩
  | .ok files =>
    if files.length = 0 then
      ⟨"", some ("No savepoints present in directory: " ++ dir), [Call.ReadDir dir]⟩
    else
      (retrieveLatestSavepointLocal.scan w dir files "" 0).after (Call.ReadDir dir)

/-- Go `func (o RealOperator) retrieveLatestSavepoint(dir string) (string, error)`. -/
def retrieveLatestSavepoint (w : World) (dir : String) : Run :=
  match w.Parse dir with
  | .ok u => if s3Schemes u.Scheme then retrieveLatestSavepointS3 w u
    else retrieveLatestSavepointLocal w dir
  | .error _ => retrieveLatestSavepointLocal w dir

/-! ## Sample worlds

Small concrete worlds on which the theorems below are instantiated. -/

/-- A parser that knows three locations and rejects everything else. -/
def sampleParse (rawurl : String) : Except GoError URL :=
  if rawurl = "s3://bucket/savepoints" then
    .ok { Scheme := "s3", Host := "bucket", Path := "/savepoints" }
  else if rawurl = "/data" then .ok { Path := "/data" }
  else if rawurl = "/data/" then .ok { Path := "/data/" }
  else .error "parse error"

/-- A world with one bucket holding three objects and one directory `/data`
holding the entries `a`, `b`, `c` modified at 100, 300 and 200. -/
def sampleWorld : World where
  Parse := sampleParse
  LoadDefaultAWSConfig := none
  Send := fun input =>
    if input.Bucket = "bucket" then
      .ok [⟨"savepoints/sp-1/_metadata", ⟨100⟩⟩, ⟨"savepoints/sp-2/_metadata", ⟨300⟩⟩,
        ⟨"savepoints/sp-2/part-0", ⟨400⟩⟩]
    else .error { Error := "NoSuchBucket: bucket not found", Code := some "NoSuchBucket" }
  ReadDir := fun dir =>
    if dir = "/data" then .ok ["a", "b", "c"]
    else if dir = "/empty" then .ok []
    else .error "open: no such file or directory"
  Stat := fun path =>
    if path = "/data/a" then .ok 100
    else if path = "/data/b" then .ok 300
    else if path = "/data/c" then .ok 200
    else .error "stat: no such file or directory"

/-- A world whose bucket `bucket` holds a single savepoint, its `_metadata`
object carrying the zero `Time` as last-modified instant. -/
def zeroTimeWorld : World where
  Parse := sampleParse
  LoadDefaultAWSConfig := none
  Send := fun input =>
    if input.Bucket = "bucket" then .ok [⟨"savepoints/sp-1/_metadata", Time.zero⟩]
    else .error { Error := "NoSuchBucket: bucket not found", Code := some "NoSuchBucket" }
  ReadDir := fun _ => .error "open: no such file or directory"
  Stat := fun _ => .error "stat: no such file or directory"

/-- A world whose bucket `bucket` is empty and whose bucket `logs` holds two
objects, neither with a key ending in `_metadata`. -/
def emptyBucketWorld : World where
  Parse := sampleParse
  LoadDefaultAWSConfig := none
  Send := fun input =>
    if input.Bucket = "bucket" then .ok []
    else if input.Bucket = "logs" then .ok [⟨"app/run.log", ⟨500⟩⟩, ⟨"app/_metadata.bak", ⟨600⟩⟩]
    else .error { Error := "NoSuchBucket: bucket not found", Code := some "NoSuchBucket" }
  ReadDir := fun _ => .error "open: no such file or directory"
  Stat := fun _ => .error "stat: no such file or directory"

/-- A world whose directory `/data` holds the single entry `a`, last modified
at the Unix epoch (`ModTime().Unix() = 0`). -/
def epochWorld : World where
  Parse := sampleParse
  LoadDefaultAWSConfig := none
  Send := fun _ => .error { Error := "RequestError: send request failed" }
  ReadDir := fun dir => if dir = "/data" then .ok ["a"] else .error "open: no such file or directory"
  Stat := fun path =>
    if path = "/data/a" then .ok 0 else .error "stat: no such file or directory"

/-- A world whose filesystem resolves `/data/` and `/data//a`, as a
filesystem that ignores repeated separators does for a directory `/data`
holding the entry `a`. -/
def slashWorld : World where
  Parse := sampleParse
  LoadDefaultAWSConfig := none
  Send := fun _ => .error { Error := "RequestError: send request failed" }
  ReadDir := fun dir =>
    if dir = "/data" ∨ dir = "/data/" then .ok ["a"] else .error "open: no such file or directory"
  Stat := fun path =>
    if path = "/data/a" ∨ path = "/data//a" then .ok 100
    else .error "stat: no such file or directory"

/-- A world whose directory `/data` holds `a`, `b`, `c`, where the stat of
`b` fails. -/
def brokenStatWorld : World where
  Parse := sampleParse
  LoadDefaultAWSConfig := none
  Send := fun _ => .error { Error := "RequestError: send request failed" }
  ReadDir := fun dir =>
    if dir = "/data" then .ok ["a", "b", "c"] else .error "open: no such file or directory"
  Stat := fun path =>
    if path = "/data/a" then .ok 100
    else if path = "/data/c" then .ok 200
    else .error "stat /data/b: permission denied"

/-! ## Facts about the library functions -/

namespace strings

/-- A string has a suffix exactly when it is some string followed by it. -/
theorem HasSuffix_iff (s suffix : String) :
    HasSuffix s suffix = true ↔ ∃ d : String, s = d ++ suffix := by
  unfold HasSuffix
  rw [List.isSuffixOf_iff_suffix]
  constructor
  · rintro ⟨t, ht⟩
    exact ⟨⟨t⟩, String.ext (by simp [ht])⟩
  · rintro ⟨d, rfl⟩
    exact ⟨d.data, by simp⟩

/-- A string followed by `suffix` has the suffix `suffix`. -/
theorem HasSuffix_append (d suffix : String) : HasSuffix (d ++ suffix) suffix = true :=
  (HasSuffix_iff _ _).2 ⟨d, rfl⟩

/-- Trimming `suffix` from `d` followed by `suffix` gives back `d`. -/
theorem TrimSuffix_append (d suffix : String) : TrimSuffix (d ++ suffix) suffix = d := by
  unfold TrimSuffix
  rw [if_pos (HasSuffix_append d suffix)]
  apply String.ext
  simp

/-- Trimming a suffix the string does not have changes nothing. -/
theorem TrimSuffix_of_not_HasSuffix (s suffix : String) (h : HasSuffix s suffix = false) :
    TrimSuffix s suffix = s := by
  unfold TrimSuffix
  simp [h]

/-- Either `s` is `TrimSuffix s suffix` followed by `suffix`, or `s` lacks
that suffix and is returned unchanged. -/
theorem TrimSuffix_cases (s suffix : String) :
    s = TrimSuffix s suffix ++ suffix ∨
      (HasSuffix s suffix = false ∧ TrimSuffix s suffix = s) := by
  cases h : HasSuffix s suffix
  · exact Or.inr ⟨rfl, TrimSuffix_of_not_HasSuffix s suffix h⟩
  · obtain ⟨d, rfl⟩ := (HasSuffix_iff _ _).1 h
    exact Or.inl (by rw [TrimSuffix_append])

/-- Trimming one `/` leaves no trailing `/` unless `s` ends in `//`. -/
theorem TrimSuffix_slash_not_HasSuffix (s : String) (h : HasSuffix s "//" = false) :
    HasSuffix (TrimSuffix s "/") "/" = false := by
  rcases TrimSuffix_cases s "/" with hs | ⟨h1, h2⟩
  · cases ht : HasSuffix (TrimSuffix s "/") "/"
    · rfl
    · obtain ⟨e, he⟩ := (HasSuffix_iff _ _).1 ht
      have hss : HasSuffix s "//" = true := by
        refine (HasSuffix_iff _ _).2 ⟨e, ?_⟩
        rw [hs, he]
        apply String.ext
        simp
      rw [hss] at h
      exact absurd h (by decide)
  · rw [h2]
    exact h1

end strings

/-- The first statement of `retrieveLatestSavepointLocal` leaves in `dir` the
value `strings.TrimSuffix(dir, "/")`. -/
theorem local_dir_eq (dir : String) :
    (if strings.HasSuffix dir "/" then strings.TrimSuffix dir "/" else dir)
      = strings.TrimSuffix dir "/" := by
  cases h : strings.HasSuffix dir "/"
  · simp [strings.TrimSuffix_of_not_HasSuffix dir "/" h]
  · simp

/-- The function `retrieveLatestSavepointLocal`, with its first statement
folded into one `TrimSuffix`. -/
theorem retrieveLatestSavepointLocal_eq (w : World) (dir : String) :
    retrieveLatestSavepointLocal w dir =
      match w.ReadDir (strings.TrimSuffix dir "/") with
      | .error err => ⟨"", some err, [Call.ReadDir (strings.TrimSuffix dir "/")]⟩
      | .ok files =>
        if files.length = 0 then
          ⟨"", some ("No savepoints present in directory: " ++ strings.TrimSuffix dir "/"),
            [Call.ReadDir (strings.TrimSuffix dir "/")]⟩
        else
          (retrieveLatestSavepointLocal.scan w (strings.TrimSuffix dir "/") files "" 0).after
            (Call.ReadDir (strings.TrimSuffix dir "/")) := by
  unfold retrieveLatestSavepointLocal
  simp only [local_dir_eq]

/-! ## The local scan -/

/-- A scan that ends with an error returns the empty string. -/
theorem local_scan_result_of_err (w : World) (dir : String) (files : List String) :
    ∀ (newestFile : String) (newestTime : Int),
      (retrieveLatestSavepointLocal.scan w dir files newestFile newestTime).err ≠ none →
      (retrieveLatestSavepointLocal.scan w dir files newestFile newestTime).result = "" := by
  induction files with
  | nil => intro nf nt h; simp [retrieveLatestSavepointLocal.scan] at h
  | cons f files ih =>
    intro nf nt h
    unfold retrieveLatestSavepointLocal.scan at h ⊢
    cases hs : w.Stat (dir ++ "/" ++ f) with
    | error e => simp [hs]
    | ok t =>
      simp only [hs] at h ⊢
      split_ifs at h ⊢ with ht
      · exact ih _ _ h
      · exact ih _ _ h

/-- A scan stops at the first entry whose stat fails: it returns that error
with the empty string, having stated the entries up to that one and no
entry after it. -/
theorem local_scan_stat_error (w : World) (dir : String) (pre : List String) (f : String)
    (post : List String) (e : GoError)
    (hpre : ∀ g ∈ pre, ∃ t, w.Stat (dir ++ "/" ++ g) = .ok t)
    (hf : w.Stat (dir ++ "/" ++ f) = .error e) :
    ∀ (newestFile : String) (newestTime : Int),
      retrieveLatestSavepointLocal.scan w dir (pre ++ f :: post) newestFile newestTime
        = ⟨"", some e, (pre ++ [f]).map fun g => Call.Stat (dir ++ "/" ++ g)⟩ := by
  induction pre with
  | nil =>
    intro nf nt
    simp [retrieveLatestSavepointLocal.scan, hf]
  | cons g pre ih =>
    intro nf nt
    obtain ⟨t, ht⟩ := hpre g (List.mem_cons_self _ _)
    have hpre' : ∀ g ∈ pre, ∃ t, w.Stat (dir ++ "/" ++ g) = .ok t :=
      fun x hx => hpre x (List.mem_cons_of_mem _ hx)
    simp only [List.cons_append, retrieveLatestSavepointLocal.scan, ht]
    split_ifs <;> simp [ih hpre', Run.after]

/-- A listing in which some stat fails splits at its first failing entry:
every entry before it has a successful stat. -/
theorem exists_first_stat_error (w : World) (dir : String) (files : List String)
    (hfail : ∃ f ∈ files, ∃ e, w.Stat (dir ++ "/" ++ f) = .error e) :
    ∃ pre f post e, files = pre ++ f :: post ∧
      (∀ g ∈ pre, ∃ t, w.Stat (dir ++ "/" ++ g) = .ok t) ∧
      w.Stat (dir ++ "/" ++ f) = .error e := by
  induction files with
  | nil =>
    obtain ⟨f, hf, _⟩ := hfail
    simp at hf
  | cons x files ih =>
    cases hx : w.Stat (dir ++ "/" ++ x) with
    | error e => exact ⟨[], x, files, e, rfl, by simp, hx⟩
    | ok t =>
      have hfail' : ∃ f ∈ files, ∃ e, w.Stat (dir ++ "/" ++ f) = .error e := by
        obtain ⟨f, hf, e, he⟩ := hfail
        rcases List.mem_cons.1 hf with rfl | hf
        · rw [hx] at he
          cases he
        · exact ⟨f, hf, e, he⟩
      obtain ⟨pre, f, post, e, hsplit, hpre, hf⟩ := ih hfail'
      refine ⟨x :: pre, f, post, e, by simp [hsplit], ?_, hf⟩
      intro g hg
      rcases List.mem_cons.1 hg with rfl | hg
      · exact ⟨t, hx⟩
      · exact hpre g hg

/-- What a scan returns when every stat succeeds. It ends without error after
one stat per entry, in listing order. Either no entry is newer than the
starting `newestTime` and the starting `newestFile` is returned, or the path
returned is that of an entry newer than the starting `newestTime`, strictly
newer than every entry before it and at least as new as every entry after
it. -/
theorem local_scan_all_ok (w : World) (dir : String) (files : List String)
    (hall : ∀ f ∈ files, ∃ t, w.Stat (dir ++ "/" ++ f) = .ok t) :
    ∀ (newestFile : String) (newestTime : Int),
      (retrieveLatestSavepointLocal.scan w dir files newestFile newestTime).err = none ∧
      (retrieveLatestSavepointLocal.scan w dir files newestFile newestTime).calls
        = files.map (fun f => Call.Stat (dir ++ "/" ++ f)) ∧
      (((retrieveLatestSavepointLocal.scan w dir files newestFile newestTime).result = newestFile ∧
          ∀ f ∈ files, ∀ t, w.Stat (dir ++ "/" ++ f) = .ok t → t ≤ newestTime) ∨
        ∃ pre f post t, files = pre ++ f :: post ∧ w.Stat (dir ++ "/" ++ f) = .ok t ∧
          newestTime < t ∧
          (∀ g ∈ pre, ∀ t', w.Stat (dir ++ "/" ++ g) = .ok t' → t' < t) ∧
          (∀ g ∈ post, ∀ t', w.Stat (dir ++ "/" ++ g) = .ok t' → t' ≤ t) ∧
          (retrieveLatestSavepointLocal.scan w dir files newestFile newestTime).result
            = dir ++ "/" ++ f) := by
  induction files with
  | nil =>
    intro nf nt
    simp [retrieveLatestSavepointLocal.scan]
  | cons f files ih =>
    intro nf nt
    obtain ⟨t, ht⟩ := hall f (List.mem_cons_self _ _)
    have hall' : ∀ g ∈ files, ∃ t, w.Stat (dir ++ "/" ++ g) = .ok t :=
      fun x hx => hall x (List.mem_cons_of_mem _ hx)
    simp only [retrieveLatestSavepointLocal.scan, ht]
    by_cases hgt : t > nt
    · rw [if_pos hgt]
      obtain ⟨h1, h2, h3⟩ := ih hall' (dir ++ "/" ++ f) t
      refine ⟨by simpa [Run.after] using h1, by simp [Run.after, h2], Or.inr ?_⟩
      rcases h3 with ⟨hres, hle⟩ | ⟨pre, g, post, tg, hsplit, hg, hlt, hpre, hpost, hres⟩
      · exact ⟨[], f, files, t, rfl, ht, hgt, by simp, hle, by simpa [Run.after] using hres⟩
      · refine ⟨f :: pre, g, post, tg, by simp [hsplit], hg, by omega, ?_, hpost,
          by simpa [Run.after] using hres⟩
        intro x hx t' hx'
        rcases List.mem_cons.1 hx with rfl | hx
        · rw [ht] at hx'
          cases hx'
          exact hlt
        · exact hpre x hx t' hx'
    · rw [if_neg hgt]
      obtain ⟨h1, h2, h3⟩ := ih hall' nf nt
      refine ⟨by simpa [Run.after] using h1, by simp [Run.after, h2], ?_⟩
      rcases h3 with ⟨hres, hle⟩ | ⟨pre, g, post, tg, hsplit, hg, hlt, hpre, hpost, hres⟩
      · refine Or.inl ⟨by simpa [Run.after] using hres, ?_⟩
        intro x hx t' hx'
        rcases List.mem_cons.1 hx with rfl | hx
        · rw [ht] at hx'
          cases hx'
          omega
        · exact hle x hx t' hx'
      · refine Or.inr ⟨f :: pre, g, post, tg, by simp [hsplit], hg, hlt, ?_, hpost,
          by simpa [Run.after] using hres⟩
        intro x hx t' hx'
        rcases List.mem_cons.1 hx with rfl | hx
        · rw [ht] at hx'
          cases hx'
          omega
        · exact hpre x hx t' hx'

/-! ## The object-storage scan -/

/-- What the scan over `result.Contents` leaves in `newestFile`. Either no
key ending in `_metadata` is later than the starting `newestTime` and the
starting `newestFile` is kept, or `newestFile` is built from the scheme and
host of `dir` and the key of an object whose key ends in `_metadata`, later
than the starting `newestTime`, strictly later than every such object before
it and at least as late as every such object after it. -/
theorem s3_scan_spec (dir : URL) (contents : List Object) :
    ∀ (newestFile : URL) (newestTime : Time),
      (retrieveLatestSavepointS3.scan dir contents newestFile newestTime = newestFile ∧
          ∀ o ∈ contents, strings.HasSuffix o.Key "_metadata" = true →
            o.LastModified.ns ≤ newestTime.ns) ∨
        ∃ pre o post, contents = pre ++ o :: post ∧
          strings.HasSuffix o.Key "_metadata" = true ∧
          newestTime.ns < o.LastModified.ns ∧
          (∀ c ∈ pre, strings.HasSuffix c.Key "_metadata" = true →
            c.LastModified.ns < o.LastModified.ns) ∧
          (∀ c ∈ post, strings.HasSuffix c.Key "_metadata" = true →
            c.LastModified.ns ≤ o.LastModified.ns) ∧
          retrieveLatestSavepointS3.scan dir contents newestFile newestTime
            = { Scheme := dir.Scheme, Host := dir.Host, Path := o.Key } := by
  induction contents with
  | nil =>
    intro nf nt
    simp [retrieveLatestSavepointS3.scan]
  | cons x contents ih =>
    intro nf nt
    unfold retrieveLatestSavepointS3.scan
    by_cases hx : strings.HasSuffix x.Key "_metadata" = true ∧ nt.ns < x.LastModified.ns
    · have hcond : (strings.HasSuffix x.Key "_metadata" && x.LastModified.After nt) = true := by
        simp [Time.After, hx.1, hx.2]
      rw [if_pos hcond]
      refine Or.inr ?_
      rcases ih { Scheme := dir.Scheme, Host := dir.Host, Path := x.Key } x.LastModified with
        ⟨hres, hle⟩ | ⟨pre, o, post, hsplit, ho, hlt, hpre, hpost, hres⟩
      · exact ⟨[], x, contents, rfl, hx.1, hx.2, by simp, hle, hres⟩
      · refine ⟨x :: pre, o, post, by simp [hsplit], ho, by omega, ?_, hpost, hres⟩
        intro c hc hcs
        rcases List.mem_cons.1 hc with rfl | hc
        · exact hlt
        · exact hpre c hc hcs
    · have hcond : ¬ (strings.HasSuffix x.Key "_metadata" && x.LastModified.After nt) = true := by
        simpa [Time.After] using hx
      rw [if_neg hcond]
      have hx' : strings.HasSuffix x.Key "_metadata" = true → x.LastModified.ns ≤ nt.ns := by
        intro h1
        by_contra h2
        exact hx ⟨h1, by omega⟩
      rcases ih nf nt with ⟨hres, hle⟩ | ⟨pre, o, post, hsplit, ho, hlt, hpre, hpost, hres⟩
      · refine Or.inl ⟨hres, ?_⟩
        intro c hc hcs
        rcases List.mem_cons.1 hc with rfl | hc
        · exact hx' hcs
        · exact hle c hc hcs
      · refine Or.inr ⟨x :: pre, o, post, by simp [hsplit], ho, hlt, ?_, hpost, hres⟩
        intro c hc hcs
        rcases List.mem_cons.1 hc with rfl | hc
        · have := hx' hcs
          omega
        · exact hpre c hc hcs

/-- The run of `retrieveLatestSavepointS3` once the configuration has loaded
and the listing request has succeeded with `contents`. -/
theorem retrieveLatestSavepointS3_of_listing (w : World) (dir : URL) (contents : List Object)
    (hcfg : w.LoadDefaultAWSConfig = none)
    (hsend : w.Send (retrieveLatestSavepointS3.input dir) = .ok contents) :
    retrieveLatestSavepointS3 w dir =
      ⟨(retrieveLatestSavepointS3.scan dir contents {} Time.zero).String, none,
        [Call.LoadDefaultAWSConfig, Call.Send (retrieveLatestSavepointS3.input dir)]⟩ := by
  unfold retrieveLatestSavepointS3
  simp only [hcfg, hsend]
  cases contents with
  | nil => simp [retrieveLatestSavepointS3.scan]
  | cons x xs => simp

/-- The zero URL renders as the empty string. -/
theorem URL.String_zero : (URL.String {}) = "" := by decide

/-- A URL with a scheme never renders as the empty string. -/
theorem URL.String_ne_empty (u : URL) (h : u.Scheme ≠ "") : u.String ≠ "" := by
  have hlen : 0 < u.Scheme.data.length := by
    rcases u with ⟨⟨sch⟩, host, path⟩
    cases sch with
    | nil => exact absurd rfl h
    | cons c cs => simp
  intro hempty
  have h0 : (u.String).data.length = 0 := by rw [hempty]; rfl
  unfold URL.String at h0
  simp only [h, ne_eq, not_false_eq_true, if_true, true_or] at h0
  split_ifs at h0 <;> simp [String.data_append] at h0

/-! ## Which calls each resolver makes -/

/-- Every call of a local scan is the stat of a listed entry under `dir`. -/
theorem local_scan_calls (w : World) (dir : String) (files : List String) :
    ∀ (newestFile : String) (newestTime : Int),
      ∀ c ∈ (retrieveLatestSavepointLocal.scan w dir files newestFile newestTime).calls,
        ∃ f ∈ files, c = Call.Stat (dir ++ "/" ++ f) := by
  induction files with
  | nil => intro nf nt c hc; simp [retrieveLatestSavepointLocal.scan] at hc
  | cons f files ih =>
    intro nf nt c hc
    unfold retrieveLatestSavepointLocal.scan at hc
    cases hs : w.Stat (dir ++ "/" ++ f) with
    | error e =>
      simp only [hs, List.mem_singleton] at hc
      exact ⟨f, List.mem_cons_self _ _, hc⟩
    | ok t =>
      simp only [hs] at hc
      have key : ∀ nf' nt', c ∈ ((retrieveLatestSavepointLocal.scan w dir files nf' nt').after
          (Call.Stat (dir ++ "/" ++ f))).calls → ∃ g ∈ f :: files, c = Call.Stat (dir ++ "/" ++ g) := by
        intro nf' nt' h
        simp only [Run.after, List.mem_cons] at h
        rcases h with rfl | h
        · exact ⟨f, List.mem_cons_self _ _, rfl⟩
        · obtain ⟨g, hg, rfl⟩ := ih nf' nt' c h
          exact ⟨g, List.mem_cons_of_mem _ hg, rfl⟩
      split_ifs at hc
      · exact key _ _ hc
      · exact key _ _ hc

/-- The local resolver first lists the trimmed directory, and every other
call it makes is the stat of an entry path built from the trimmed directory. -/
theorem retrieveLatestSavepointLocal_calls (w : World) (dir : String) :
    ∃ rest, (retrieveLatestSavepointLocal w dir).calls
        = Call.ReadDir (strings.TrimSuffix dir "/") :: rest ∧
      ∀ c ∈ rest, ∃ name, c = Call.Stat (strings.TrimSuffix dir "/" ++ "/" ++ name) := by
  rw [retrieveLatestSavepointLocal_eq]
  cases hr : w.ReadDir (strings.TrimSuffix dir "/") with
  | error e => exact ⟨[], by simp⟩
  | ok files =>
    by_cases hlen : files.length = 0
    · exact ⟨[], by simp [hlen]⟩
    · refine ⟨(retrieveLatestSavepointLocal.scan w (strings.TrimSuffix dir "/") files "" 0).calls,
        by simp [hlen, Run.after], ?_⟩
      intro c hc
      obtain ⟨f, _, rfl⟩ := local_scan_calls w _ files "" 0 c hc
      exact ⟨f, rfl⟩

/-- The object-storage resolver starts by loading the configuration and makes
no filesystem call. -/
theorem retrieveLatestSavepointS3_calls (w : World) (dir : URL) :
    (retrieveLatestSavepointS3 w dir).calls ≠ [] ∧
      ∀ c ∈ (retrieveLatestSavepointS3 w dir).calls, c.isS3 = true ∧ c.isLocal = false := by
  unfold retrieveLatestSavepointS3
  cases hc : w.LoadDefaultAWSConfig with
  | some e => simp [Call.isS3, Call.isLocal]
  | none =>
    cases hs : w.Send (retrieveLatestSavepointS3.input dir) with
    | ok contents => simp [hs, Call.isS3, Call.isLocal]
    | error err =>
      rcases err with ⟨msg, code⟩
      cases code with
      | none => simp [hs, Call.isS3, Call.isLocal]
      | some code =>
        by_cases hcode : code = ErrCodeNoSuchBucket <;>
          simp [hs, hcode, Call.isS3, Call.isLocal]

/-- The scheme table accepts exactly `s3`, `s3a` and `s3p`. -/
theorem s3Schemes_iff (scheme : String) :
    s3Schemes scheme = true ↔ scheme = "s3" ∨ scheme = "s3a" ∨ scheme = "s3p" := by
  unfold s3Schemes
  split_ifs with h1 h2 h3 <;> simp [*]

/-! ## Errors come with the empty string -/

/-- An error of the object-storage resolver comes with the empty string. -/
theorem retrieveLatestSavepointS3_result_of_err (w : World) (dir : URL)
    (h : (retrieveLatestSavepointS3 w dir).err ≠ none) :
    (retrieveLatestSavepointS3 w dir).result = "" := by
  unfold retrieveLatestSavepointS3 at h ⊢
  cases hc : w.LoadDefaultAWSConfig with
  | some e => simp
  | none =>
    cases hs : w.Send (retrieveLatestSavepointS3.input dir) with
    | ok contents => simp [hc, hs] at h
    | error err => simp [hs]

/-- An error of the local resolver comes with the empty string. -/
theorem retrieveLatestSavepointLocal_result_of_err (w : World) (dir : String)
    (h : (retrieveLatestSavepointLocal w dir).err ≠ none) :
    (retrieveLatestSavepointLocal w dir).result = "" := by
  rw [retrieveLatestSavepointLocal_eq] at h ⊢
  cases hr : w.ReadDir (strings.TrimSuffix dir "/") with
  | error e => simp
  | ok files =>
    by_cases hlen : files.length = 0
    · simp [hlen]
    · simp only [hr, hlen, if_false, Run.after] at h ⊢
      exact local_scan_result_of_err w _ files "" 0 h

/-! ## Selection of the latest entry -/

/-- When the listing holds a key ending in `_metadata` later than the zero
`Time`, `retrieveLatestSavepointS3` returns, with no error, the location built
from the first of the latest such keys. -/
theorem retrieveLatestSavepointS3_latest_after_zero (w : World) (dir : URL)
    (contents : List Object)
    (hcfg : w.LoadDefaultAWSConfig = none)
    (hsend : w.Send (retrieveLatestSavepointS3.input dir) = .ok contents)
    (hcand : ∃ o ∈ contents, strings.HasSuffix o.Key "_metadata" = true ∧
      o.LastModified.After Time.zero = true) :
    ∃ pre o post, contents = pre ++ o :: post ∧
      strings.HasSuffix o.Key "_metadata" = true ∧
      (∀ c ∈ pre, strings.HasSuffix c.Key "_metadata" = true →
        c.LastModified.ns < o.LastModified.ns) ∧
      (∀ c ∈ post, strings.HasSuffix c.Key "_metadata" = true →
        c.LastModified.ns ≤ o.LastModified.ns) ∧
      (retrieveLatestSavepointS3 w dir).result
        = URL.String { Scheme := dir.Scheme, Host := dir.Host, Path := o.Key } ∧
      (retrieveLatestSavepointS3 w dir).err = none := by
  rw [retrieveLatestSavepointS3_of_listing w dir contents hcfg hsend]
  rcases s3_scan_spec dir contents {} Time.zero with
    ⟨_, hle⟩ | ⟨pre, o, post, hsplit, ho, _, hpre, hpost, hres⟩
  · obtain ⟨o, ho, hsuf, hafter⟩ := hcand
    have h1 := hle o ho hsuf
    simp only [Time.After, decide_eq_true_eq] at hafter
    omega
  · exact ⟨pre, o, post, hsplit, ho, hpre, hpost, by rw [hres], rfl⟩

/-- When no key ending in `_metadata` is later than the zero `Time`,
`retrieveLatestSavepointS3` returns the empty string and no error. -/
theorem retrieveLatestSavepointS3_none_after_zero (w : World) (dir : URL)
    (contents : List Object)
    (hcfg : w.LoadDefaultAWSConfig = none)
    (hsend : w.Send (retrieveLatestSavepointS3.input dir) = .ok contents)
    (hnone : ∀ o ∈ contents, strings.HasSuffix o.Key "_metadata" = true →
      o.LastModified.After Time.zero = false) :
    (retrieveLatestSavepointS3 w dir).result = "" ∧
      (retrieveLatestSavepointS3 w dir).err = none := by
  rw [retrieveLatestSavepointS3_of_listing w dir contents hcfg hsend]
  rcases s3_scan_spec dir contents {} Time.zero with
    ⟨hres, _⟩ | ⟨pre, o, post, hsplit, ho, hlt, _, _, _⟩
  · exact ⟨by rw [hres]; exact URL.String_zero, rfl⟩
  · have hmem : o ∈ contents := by rw [hsplit]; simp
    have := hnone o hmem ho
    simp only [Time.After, decide_eq_false_iff_not] at this
    omega

/-- When every stat succeeds and some entry was modified after the Unix epoch
(`ModTime().Unix() > 0`), `retrieveLatestSavepointLocal` returns, with no
error, the full path of the first of the most recently modified entries. -/
theorem retrieveLatestSavepointLocal_latest_after_epoch (w : World) (dir : String)
    (files : List String)
    (hlist : w.ReadDir (strings.TrimSuffix dir "/") = .ok files)
    (hall : ∀ f ∈ files, ∃ t, w.Stat (strings.TrimSuffix dir "/" ++ "/" ++ f) = .ok t)
    (hpos : ∃ f ∈ files, ∃ t, w.Stat (strings.TrimSuffix dir "/" ++ "/" ++ f) = .ok t ∧ 0 < t) :
    ∃ pre f post t, files = pre ++ f :: post ∧
      w.Stat (strings.TrimSuffix dir "/" ++ "/" ++ f) = .ok t ∧
      (∀ g ∈ pre, ∀ t', w.Stat (strings.TrimSuffix dir "/" ++ "/" ++ g) = .ok t' → t' < t) ∧
      (∀ g ∈ post, ∀ t', w.Stat (strings.TrimSuffix dir "/" ++ "/" ++ g) = .ok t' → t' ≤ t) ∧
      (retrieveLatestSavepointLocal w dir).result = strings.TrimSuffix dir "/" ++ "/" ++ f ∧
      (retrieveLatestSavepointLocal w dir).err = none := by
  obtain ⟨f0, hf0, t0, hs0, ht0⟩ := hpos
  have hlen : files.length ≠ 0 := by
    intro h
    rw [List.length_eq_zero.1 h] at hf0
    simp at hf0
  rw [retrieveLatestSavepointLocal_eq]
  simp only [hlist, hlen, if_false, Run.after]
  obtain ⟨herr, _, hsel⟩ := local_scan_all_ok w _ files hall "" 0
  rcases hsel with ⟨_, hle⟩ | ⟨pre, f, post, t, hsplit, hf, _, hpre, hpost, hres⟩
  · have := hle f0 hf0 t0 hs0
    omega
  · exact ⟨pre, f, post, t, hsplit, hf, hpre, hpost, hres, herr⟩

/-- When every stat succeeds and no entry was modified after the Unix epoch,
`retrieveLatestSavepointLocal` returns the empty string and no error, also
for a directory that has entries. -/
theorem retrieveLatestSavepointLocal_none_after_epoch (w : World) (dir : String)
    (files : List String) (hne : files ≠ [])
    (hlist : w.ReadDir (strings.TrimSuffix dir "/") = .ok files)
    (hall : ∀ f ∈ files, ∃ t, w.Stat (strings.TrimSuffix dir "/" ++ "/" ++ f) = .ok t ∧ t ≤ 0) :
    (retrieveLatestSavepointLocal w dir).result = "" ∧
      (retrieveLatestSavepointLocal w dir).err = none := by
  have hlen : files.length ≠ 0 := fun h => hne (List.length_eq_zero.1 h)
  rw [retrieveLatestSavepointLocal_eq]
  simp only [hlist, hlen, if_false, Run.after]
  obtain ⟨herr, _, hsel⟩ := local_scan_all_ok w _ files
    (fun f hf => (hall f hf).imp fun _ h => h.1) "" 0
  rcases hsel with ⟨hres, _⟩ | ⟨pre, f, post, t, hsplit, hf, hlt, _, _, _⟩
  · exact ⟨hres, herr⟩
  · have hmem : f ∈ files := by rw [hsplit]; simp
    obtain ⟨t', ht', hle⟩ := hall f hmem
    rw [hf] at ht'
    cases ht'
    omega

/-- The directory of the specification's example: for the entries `a`, `b`,
`c` modified at 100, 300 and 200 the local resolver returns the path of `b`. -/
theorem retrieveLatestSavepointLocal_example :
    retrieveLatestSavepointLocal sampleWorld "/data"
      = ⟨"/data/b", none, [Call.ReadDir "/data", Call.Stat "/data/a", Call.Stat "/data/b",
          Call.Stat "/data/c"]⟩ := by
  decide

/-! ## Reading the returned location back -/

/-- The calls of a local scan are the stats of the first `n` listed entries,
each path being `dir`, `/` and the entry name, in listing order. A scan of a
non-empty listing stats at least one entry; a scan that ends without error
stats them all and returns either the starting `newestFile` or the path of a
listed entry, built the same way. -/
theorem local_scan_shape (w : World) (dir : String) (files : List String) :
    ∀ (newestFile : String) (newestTime : Int),
      ∃ n, (retrieveLatestSavepointLocal.scan w dir files newestFile newestTime).calls
          = (files.take n).map (fun f => Call.Stat (dir ++ "/" ++ f)) ∧
        (files ≠ [] → 0 < n) ∧
        ((retrieveLatestSavepointLocal.scan w dir files newestFile newestTime).err = none →
          n = files.length ∧
          ((retrieveLatestSavepointLocal.scan w dir files newestFile newestTime).result
              = newestFile ∨
            ∃ f ∈ files,
              (retrieveLatestSavepointLocal.scan w dir files newestFile newestTime).result
                = dir ++ "/" ++ f)) := by
  induction files with
  | nil =>
    intro nf nt
    exact ⟨0, by simp [retrieveLatestSavepointLocal.scan]⟩
  | cons f files ih =>
    intro nf nt
    unfold retrieveLatestSavepointLocal.scan
    cases hs : w.Stat (dir ++ "/" ++ f) with
    | error e => exact ⟨1, by simp [hs]⟩
    | ok t =>
      have key : ∀ nf' nt', (nf' = nf ∨ nf' = dir ++ "/" ++ f) →
          ∃ n, ((retrieveLatestSavepointLocal.scan w dir files nf' nt').after
              (Call.Stat (dir ++ "/" ++ f))).calls
              = ((f :: files).take n).map (fun g => Call.Stat (dir ++ "/" ++ g)) ∧
            (f :: files ≠ [] → 0 < n) ∧
            (((retrieveLatestSavepointLocal.scan w dir files nf' nt').after
                (Call.Stat (dir ++ "/" ++ f))).err = none →
              n = (f :: files).length ∧
              (((retrieveLatestSavepointLocal.scan w dir files nf' nt').after
                  (Call.Stat (dir ++ "/" ++ f))).result = nf ∨
                ∃ g ∈ f :: files,
                  ((retrieveLatestSavepointLocal.scan w dir files nf' nt').after
                    (Call.Stat (dir ++ "/" ++ f))).result = dir ++ "/" ++ g)) := by
        intro nf' nt' hnf
        obtain ⟨n, hcalls, _, hok⟩ := ih nf' nt'
        refine ⟨n + 1, by simp [Run.after, hcalls], fun _ => Nat.succ_pos n, ?_⟩
        intro herr
        obtain ⟨hn, hres⟩ := hok herr
        refine ⟨by simp [hn], ?_⟩
        rcases hres with hres | ⟨g, hg, hres⟩
        · rcases hnf with rfl | rfl
          · exact Or.inl hres
          · exact Or.inr ⟨f, List.mem_cons_self _ _, hres⟩
        · exact Or.inr ⟨g, List.mem_cons_of_mem _ hg, hres⟩
      simp only [hs]
      split_ifs
      · exact key _ _ (Or.inr rfl)
      · exact key _ _ (Or.inl rfl)

/-! ## The claims -/

/-- C1: a location whose parsed scheme is `s3`, `s3a` or `s3p` is resolved by
`retrieveLatestSavepointS3` on the parsed URL; every other location, also
one that does not parse, is resolved by `retrieveLatestSavepointLocal` on the
original string. In each case the calls made are those of that one resolver:
at least one call, and none that belongs to the other resolver. -/
theorem retrieveLatestSavepoint_dispatch (w : World) (dir : String) :
    (∀ u, w.Parse dir = .ok u → (u.Scheme = "s3" ∨ u.Scheme = "s3a" ∨ u.Scheme = "s3p") →
        retrieveLatestSavepoint w dir = retrieveLatestSavepointS3 w u ∧
        (retrieveLatestSavepoint w dir).calls ≠ [] ∧
        ∀ c ∈ (retrieveLatestSavepoint w dir).calls, c.isS3 = true ∧ c.isLocal = false) ∧
    ((∀ u, w.Parse dir = .ok u → ¬ (u.Scheme = "s3" ∨ u.Scheme = "s3a" ∨ u.Scheme = "s3p")) →
        retrieveLatestSavepoint w dir = retrieveLatestSavepointLocal w dir ∧
        (retrieveLatestSavepoint w dir).calls ≠ [] ∧
        ∀ c ∈ (retrieveLatestSavepoint w dir).calls, c.isLocal = true ∧ c.isS3 = false) := by
  have hlocal : (retrieveLatestSavepointLocal w dir).calls ≠ [] ∧
      ∀ c ∈ (retrieveLatestSavepointLocal w dir).calls, c.isLocal = true ∧ c.isS3 = false := by
    obtain ⟨rest, hcalls, hrest⟩ := retrieveLatestSavepointLocal_calls w dir
    rw [hcalls]
    refine ⟨by simp, ?_⟩
    intro c hc
    rcases List.mem_cons.1 hc with rfl | hc
    · simp [Call.isLocal, Call.isS3]
    · obtain ⟨name, rfl⟩ := hrest c hc
      simp [Call.isLocal, Call.isS3]
  constructor
  · intro u hu hscheme
    have heq : retrieveLatestSavepoint w dir = retrieveLatestSavepointS3 w u := by
      unfold retrieveLatestSavepoint
      simp [hu, (s3Schemes_iff u.Scheme).2 hscheme]
    rw [heq]
    exact ⟨rfl, retrieveLatestSavepointS3_calls w u⟩
  · intro hother
    have heq : retrieveLatestSavepoint w dir = retrieveLatestSavepointLocal w dir := by
      unfold retrieveLatestSavepoint
      cases hp : w.Parse dir with
      | error e => rfl
      | ok u =>
        have hns : s3Schemes u.Scheme = false := by
          cases hs : s3Schemes u.Scheme
          · rfl
          · exact absurd ((s3Schemes_iff u.Scheme).1 hs) (hother u hp)
        simp [hns]
    rw [heq]
    exact ⟨rfl, hlocal⟩

/-- Witness of C1: in `sampleWorld` the location `s3://bucket/savepoints`,
parsed with scheme `s3`, runs the object-storage resolver, and the location
`/var/savepoints`, which the sample parser rejects, runs the local one. -/
theorem retrieveLatestSavepoint_dispatch_witness :
    (retrieveLatestSavepoint sampleWorld "s3://bucket/savepoints"
        = retrieveLatestSavepointS3 sampleWorld ⟨"s3", "bucket", "/savepoints"⟩ ∧
      (retrieveLatestSavepoint sampleWorld "s3://bucket/savepoints").calls ≠ [] ∧
      ∀ c ∈ (retrieveLatestSavepoint sampleWorld "s3://bucket/savepoints").calls,
        c.isS3 = true ∧ c.isLocal = false) ∧
    (retrieveLatestSavepoint sampleWorld "/var/savepoints"
        = retrieveLatestSavepointLocal sampleWorld "/var/savepoints" ∧
      (retrieveLatestSavepoint sampleWorld "/var/savepoints").calls ≠ [] ∧
      ∀ c ∈ (retrieveLatestSavepoint sampleWorld "/var/savepoints").calls,
        c.isLocal = true ∧ c.isS3 = false) :=
  ⟨(retrieveLatestSavepoint_dispatch sampleWorld "s3://bucket/savepoints").1
      ⟨"s3", "bucket", "/savepoints"⟩ (by decide) (Or.inl rfl),
    (retrieveLatestSavepoint_dispatch sampleWorld "/var/savepoints").2
      (fun u hu => by
        have hp : sampleWorld.Parse "/var/savepoints" = .error "parse error" := by decide
        rw [hp] at hu
        cases hu)⟩

/-- C2, at the failing input: for a listing whose only object has a key with
the suffix `_metadata` and the zero `Time` as last-modified instant,
`retrieveLatestSavepointS3` returns the empty string and no error, not the
location built from that key. -/
theorem retrieveLatestSavepointS3_zero_time_candidate :
    zeroTimeWorld.LoadDefaultAWSConfig = none ∧
    zeroTimeWorld.Send (retrieveLatestSavepointS3.input ⟨"s3", "bucket", "/savepoints"⟩)
      = .ok [⟨"savepoints/sp-1/_metadata", Time.zero⟩] ∧
    strings.HasSuffix "savepoints/sp-1/_metadata" "_metadata" = true ∧
    (retrieveLatestSavepointS3 zeroTimeWorld ⟨"s3", "bucket", "/savepoints"⟩).result = "" ∧
    (retrieveLatestSavepointS3 zeroTimeWorld ⟨"s3", "bucket", "/savepoints"⟩).err = none ∧
    URL.String ⟨"s3", "bucket", "savepoints/sp-1/_metadata"⟩
      = "s3://bucket/savepoints/sp-1/_metadata" := by
  decide

/-- C3, at the failing input: for a directory whose only entry was last
modified at the Unix epoch and whose stat succeeds,
`retrieveLatestSavepointLocal` returns the empty string and no error, not the
path of that entry. -/
theorem retrieveLatestSavepointLocal_epoch_entry :
    epochWorld.ReadDir "/data" = .ok ["a"] ∧
    epochWorld.Stat "/data/a" = .ok 0 ∧
    (retrieveLatestSavepointLocal epochWorld "/data").result = "" ∧
    (retrieveLatestSavepointLocal epochWorld "/data").err = none := by
  decide

/-- C4: when the configuration loads and the listing succeeds with no key that
ends in `_metadata` (the empty listing included),
`retrieveLatestSavepointS3` returns the empty string and no error. -/
theorem retrieveLatestSavepointS3_no_candidates (w : World) (dir : URL)
    (contents : List Object)
    (hcfg : w.LoadDefaultAWSConfig = none)
    (hsend : w.Send (retrieveLatestSavepointS3.input dir) = .ok contents)
    (hnone : ∀ o ∈ contents, strings.HasSuffix o.Key "_metadata" = false) :
    (retrieveLatestSavepointS3 w dir).result = "" ∧
      (retrieveLatestSavepointS3 w dir).err = none := by
  rw [retrieveLatestSavepointS3_of_listing w dir contents hcfg hsend]
  rcases s3_scan_spec dir contents {} Time.zero with
    ⟨hres, _⟩ | ⟨pre, o, post, hsplit, ho, _, _, _, _⟩
  · exact ⟨by rw [hres]; exact URL.String_zero, rfl⟩
  · have hmem : o ∈ contents := by rw [hsplit]; simp
    rw [hnone o hmem] at ho
    exact absurd ho (by decide)

/-- Witness of C4: the bucket `logs`, whose two keys do not end in
`_metadata`. -/
theorem retrieveLatestSavepointS3_no_candidates_witness :
    emptyBucketWorld.Send (retrieveLatestSavepointS3.input ⟨"s3", "logs", ""⟩)
      = .ok [⟨"app/run.log", ⟨500⟩⟩, ⟨"app/_metadata.bak", ⟨600⟩⟩] ∧
    (retrieveLatestSavepointS3 emptyBucketWorld ⟨"s3", "logs", ""⟩).result = "" ∧
    (retrieveLatestSavepointS3 emptyBucketWorld ⟨"s3", "logs", ""⟩).err = none :=
  ⟨by decide,
    retrieveLatestSavepointS3_no_candidates emptyBucketWorld ⟨"s3", "logs", ""⟩
      [⟨"app/run.log", ⟨500⟩⟩, ⟨"app/_metadata.bak", ⟨600⟩⟩] (by decide) (by decide)
      (by decide)⟩

/-- C5: when the listing of the directory (the argument without its trailing
separator) succeeds with zero entries, `retrieveLatestSavepointLocal` returns
the empty string and the error `No savepoints present in directory: `
followed by that directory, after the one listing call. -/
theorem retrieveLatestSavepointLocal_empty_directory (w : World) (dir : String)
    (hlist : w.ReadDir (strings.TrimSuffix dir "/") = .ok []) :
    (retrieveLatestSavepointLocal w dir).result = "" ∧
      (retrieveLatestSavepointLocal w dir).err
        = some ("No savepoints present in directory: " ++ strings.TrimSuffix dir "/") ∧
      (retrieveLatestSavepointLocal w dir).calls
        = [Call.ReadDir (strings.TrimSuffix dir "/")] := by
  rw [retrieveLatestSavepointLocal_eq]
  simp [hlist]

/-- Witness of C5: the empty directory `/empty`, named with a trailing
separator. -/
theorem retrieveLatestSavepointLocal_empty_directory_witness :
    strings.TrimSuffix "/empty/" "/" = "/empty" ∧
      (retrieveLatestSavepointLocal sampleWorld "/empty/").result = "" ∧
      (retrieveLatestSavepointLocal sampleWorld "/empty/").err
        = some ("No savepoints present in directory: " ++ strings.TrimSuffix "/empty/" "/") ∧
      (retrieveLatestSavepointLocal sampleWorld "/empty/").calls
        = [Call.ReadDir (strings.TrimSuffix "/empty/" "/")] :=
  ⟨by decide, retrieveLatestSavepointLocal_empty_directory sampleWorld "/empty/" (by decide)⟩

/-- C6: when the listing succeeds and the stat of at least one entry fails,
`retrieveLatestSavepointLocal` returns the empty string and exactly the stat
error of the first failing entry in listing order, whatever the modification
times of the entries before it and whatever the entries after it: the entries
up to the failing one are stated, in order, and none after it. -/
theorem retrieveLatestSavepointLocal_stat_error (w : World) (dir : String)
    (files : List String)
    (hlist : w.ReadDir (strings.TrimSuffix dir "/") = .ok files)
    (hfail : ∃ f ∈ files, ∃ e, w.Stat (strings.TrimSuffix dir "/" ++ "/" ++ f) = .error e) :
    ∃ pre f post e, files = pre ++ f :: post ∧
      (∀ g ∈ pre, ∃ t, w.Stat (strings.TrimSuffix dir "/" ++ "/" ++ g) = .ok t) ∧
      w.Stat (strings.TrimSuffix dir "/" ++ "/" ++ f) = .error e ∧
      (retrieveLatestSavepointLocal w dir).result = "" ∧
      (retrieveLatestSavepointLocal w dir).err = some e ∧
      (retrieveLatestSavepointLocal w dir).calls
        = Call.ReadDir (strings.TrimSuffix dir "/") ::
          (pre ++ [f]).map fun g => Call.Stat (strings.TrimSuffix dir "/" ++ "/" ++ g) := by
  obtain ⟨pre, f, post, e, hsplit, hpre, hf⟩ := exists_first_stat_error w _ files hfail
  refine ⟨pre, f, post, e, hsplit, hpre, hf, ?_⟩
  rw [retrieveLatestSavepointLocal_eq]
  simp only [hlist, hsplit]
  rw [if_neg (by simp)]
  rw [local_scan_stat_error w _ pre f post e hpre hf]
  simp [Run.after]

/-- Witness of C6: in `/data` of `brokenStatWorld` the stat of `b` fails
between `a` (time 100) and `c` (time 200). -/
theorem retrieveLatestSavepointLocal_stat_error_witness :
    brokenStatWorld.ReadDir (strings.TrimSuffix "/data" "/") = .ok ["a", "b", "c"] ∧
    ∃ pre f post e, ["a", "b", "c"] = pre ++ f :: post ∧
      (∀ g ∈ pre, ∃ t, brokenStatWorld.Stat (strings.TrimSuffix "/data" "/" ++ "/" ++ g) = .ok t) ∧
      brokenStatWorld.Stat (strings.TrimSuffix "/data" "/" ++ "/" ++ f) = .error e ∧
      (retrieveLatestSavepointLocal brokenStatWorld "/data").result = "" ∧
      (retrieveLatestSavepointLocal brokenStatWorld "/data").err = some e ∧
      (retrieveLatestSavepointLocal brokenStatWorld "/data").calls
        = Call.ReadDir (strings.TrimSuffix "/data" "/") ::
          (pre ++ [f]).map fun g => Call.Stat (strings.TrimSuffix "/data" "/" ++ "/" ++ g) :=
  ⟨by decide,
    retrieveLatestSavepointLocal_stat_error brokenStatWorld "/data" ["a", "b", "c"] (by decide)
      ⟨"b", by decide, "stat /data/b: permission denied", by decide⟩⟩

/-- The run of the C6 witness, written out: the error of `b`, no stat of `c`. -/
theorem retrieveLatestSavepointLocal_stat_error_example :
    retrieveLatestSavepointLocal brokenStatWorld "/data"
      = ⟨"", some "stat /data/b: permission denied",
          [Call.ReadDir "/data", Call.Stat "/data/a", Call.Stat "/data/b"]⟩ := by
  decide

/-- C8: for a directory path `d` that does not end in `/`, and any world,
`retrieveLatestSavepointLocal` behaves on `d` followed by `/` exactly as on
`d`: same string, same error, same calls. -/
theorem retrieveLatestSavepointLocal_trailing_separator (w : World) (d : String)
    (hd : strings.HasSuffix d "/" = false) :
    retrieveLatestSavepointLocal w (d ++ "/") = retrieveLatestSavepointLocal w d := by
  rw [retrieveLatestSavepointLocal_eq, retrieveLatestSavepointLocal_eq,
    strings.TrimSuffix_append, strings.TrimSuffix_of_not_HasSuffix d "/" hd]

/-- Witness of C8: `/data/` and `/data` in `sampleWorld`. -/
theorem retrieveLatestSavepointLocal_trailing_separator_witness :
    strings.HasSuffix "/data" "/" = false ∧
      retrieveLatestSavepointLocal sampleWorld ("/data" ++ "/")
        = retrieveLatestSavepointLocal sampleWorld "/data" :=
  ⟨by decide, retrieveLatestSavepointLocal_trailing_separator sampleWorld "/data" (by decide)⟩

/-- C9 as stated fails: for the argument `/data//` the directory passed to
the listing is `/data/`, which ends in `/`, and the entry path built from it
is `/data//a`. -/
theorem retrieveLatestSavepointLocal_double_separator :
    strings.HasSuffix "/data/" "/" = true ∧
    retrieveLatestSavepointLocal slashWorld "/data//"
      = ⟨"/data//a", none, [Call.ReadDir "/data/", Call.Stat "/data//a"]⟩ := by
  decide

/-- C9, amended: one trailing `/` is stripped before use. There is a path `d`
such that the argument is `d` followed by one `/`, or is `d` itself and does
not end in `/`; `d` does not end in `/` unless the argument ends in `//`; and
`d` is the path used throughout. The listing is asked for `d`; a listing
error is returned after that one call; the error for an empty directory
names `d`; for a non-empty listing the stats are of the first entries of the
listing, in order, each path being `d`, `/` and the entry name, and a run
without error stats every entry and returns the empty string or `d`, `/` and
the name of a listed entry. -/
theorem retrieveLatestSavepointLocal_strips_one_separator (w : World) (dir : String) :
    ∃ d,
      (dir = d ++ "/" ∨ (dir = d ∧ strings.HasSuffix dir "/" = false)) ∧
      (strings.HasSuffix dir "//" = false → strings.HasSuffix d "/" = false) ∧
      (∀ e, w.ReadDir d = .error e →
        retrieveLatestSavepointLocal w dir = ⟨"", some e, [Call.ReadDir d]⟩) ∧
      (w.ReadDir d = .ok [] →
        retrieveLatestSavepointLocal w dir
          = ⟨"", some ("No savepoints present in directory: " ++ d), [Call.ReadDir d]⟩) ∧
      (∀ files, w.ReadDir d = .ok files → files ≠ [] →
        ∃ n, 0 < n ∧
          (retrieveLatestSavepointLocal w dir).calls
            = Call.ReadDir d :: (files.take n).map (fun f => Call.Stat (d ++ "/" ++ f)) ∧
          ((retrieveLatestSavepointLocal w dir).err = none →
            n = files.length ∧
            ((retrieveLatestSavepointLocal w dir).result = "" ∨
              ∃ f ∈ files, (retrieveLatestSavepointLocal w dir).result = d ++ "/" ++ f))) := by
  refine ⟨strings.TrimSuffix dir "/", ?_, strings.TrimSuffix_slash_not_HasSuffix dir,
    ?_, ?_, ?_⟩
  · rcases strings.TrimSuffix_cases dir "/" with h | ⟨h1, h2⟩
    · exact Or.inl h
    · exact Or.inr ⟨h2.symm, h1⟩
  · intro e he
    rw [retrieveLatestSavepointLocal_eq]
    simp [he]
  · intro hlist
    rw [retrieveLatestSavepointLocal_eq]
    simp [hlist]
  · intro files hlist hne
    have hlen : files.length ≠ 0 := fun h => hne (List.length_eq_zero.1 h)
    rw [retrieveLatestSavepointLocal_eq]
    simp only [hlist, hlen, if_false, Run.after]
    obtain ⟨n, hcalls, hpos, hok⟩ := local_scan_shape w (strings.TrimSuffix dir "/") files "" 0
    exact ⟨n, hpos hne, by rw [hcalls], hok⟩

/-- An instance of amended C9 written out: for the argument `/data/` the
listing is asked for `/data` and the entry `a` is stated as `/data/a`. -/
theorem retrieveLatestSavepointLocal_single_separator_example :
    retrieveLatestSavepointLocal slashWorld "/data/"
      = ⟨"/data/a", none, [Call.ReadDir "/data", Call.Stat "/data/a"]⟩ := by
  decide

/-- C10: whenever `retrieveLatestSavepoint` returns a non-nil error, through
either resolver and whatever the collaborators answer, the string it returns
is empty. -/
theorem retrieveLatestSavepoint_result_of_err (w : World) (dir : String)
    (h : (retrieveLatestSavepoint w dir).err ≠ none) :
    (retrieveLatestSavepoint w dir).result = "" := by
  unfold retrieveLatestSavepoint at h ⊢
  cases hp : w.Parse dir with
  | error e =>
    simp only [hp] at h ⊢
    exact retrieveLatestSavepointLocal_result_of_err w dir h
  | ok u =>
    simp only [hp] at h ⊢
    split_ifs at h ⊢
    · exact retrieveLatestSavepointS3_result_of_err w u h
    · exact retrieveLatestSavepointLocal_result_of_err w dir h

/-- Witness of C10: the empty directory `/empty` of `sampleWorld`, next to a
call that returns no error. -/
theorem retrieveLatestSavepoint_result_of_err_witness :
    (retrieveLatestSavepoint sampleWorld "s3://bucket/savepoints").err = none ∧
    (retrieveLatestSavepoint sampleWorld "/empty").err
      = some "No savepoints present in directory: /empty" ∧
    (retrieveLatestSavepoint sampleWorld "/empty").result = "" :=
  ⟨by decide, by decide,
    retrieveLatestSavepoint_result_of_err sampleWorld "/empty" (by decide)⟩

end FlinkDeployer
